import Mathlib

/-!
Shallow embedding of `hyperlearn2/base.py`: the memory estimator (`memory_usage`,
`memory`), the argument classifier (`arg_process`), the `process` decorator with its
`wrapper` pipeline, and the `lapack` routine dispatcher.  Machine integers are `Nat`
(all quantities involved are non-negative); Python exceptions are the error side of
`Except`; the `*args` tuple of the wrapper is immutable, so the source lines that
assign into it (`args[i] = ...`, `del args[l]`) are embedded as the `TypeError`
Python raises for tuple item assignment (`WErr.tupleAssign`).
-/

/-- Numpy dtypes that can reach this code.  `boolDt` stands for `np.bool_` (a
non-numerical dtype for `arg_process`: numpy's `issubdtype(bool_, integer)` is False). -/
inductive Dtype where
  | float16 | float32 | float64 | complex64 | complex128
  | int8 | int16 | int32 | int64
  | uint8 | uint16 | uint32 | uint64
  | boolDt
deriving DecidableEq

/-- `np.dtype(d).itemsize`. -/
def Dtype.itemsize : Dtype → Nat
  | .float16 => 2
  | .float32 => 4
  | .float64 => 8
  | .complex64 => 8
  | .complex128 => 16
  | .int8 => 1
  | .int16 => 2
  | .int32 => 4
  | .int64 => 8
  | .uint8 => 1
  | .uint16 => 2
  | .uint32 => 4
  | .uint64 => 8
  | .boolDt => 1

/-- `np.issubdtype(d, np.integer)`. -/
def Dtype.isInteger : Dtype → Bool
  | .int8 | .int16 | .int32 | .int64 | .uint8 | .uint16 | .uint32 | .uint64 => true
  | _ => false

/-- `np.issubdtype(d, np.complexfloating)`. -/
def Dtype.isComplexFloating : Dtype → Bool
  | .complex64 | .complex128 => true
  | _ => false

/-- `maxFloat = np.float64 if _is64 else np.float32`; `_is64` (from `sys.maxsize`) is a
platform word-size flag, carried as an explicit parameter. -/
def maxFloat (is64 : Bool) : Dtype := if is64 then .float64 else .float32

/-- Array shapes reaching this code are 1-D `(k,)` or 2-D `(n, p)`. -/
inductive Shape where
  | one (k : Nat)
  | two (n p : Nat)
deriving DecidableEq

/-- The usage-pattern keys of the `memory_usage` dict. -/
inductive Pattern where
  | full | same | triu | squared | columns
deriving DecidableEq

/-- Modelled from the spec: `_min` is imported from `hyperlearn2.numba`, a module that
is not in src; the spec gives the `full` pattern as `n*p + min(n², p²)`, so `_min` is
the binary minimum. -/
def _min (a b : Nat) : Nat := min a b

/-- The `memory_usage` dict of lambdas, as a function of the pattern key. -/
def memory_usage (pat : Pattern) (n p : Nat) : Nat :=
  match pat with
  | .full => n * p + _min (n ^ 2) (p ^ 2)
  | .same => n * p
  | .triu => if p < n then p ^ 2 else n * p
  | .squared => n ^ 2
  | .columns => p

/-- `np.dtype(dtype).itemsize` where `dtype` may be Python `None`:
numpy interprets `np.dtype(None)` as float64 (itemsize 8). -/
def np_dtype_itemsize : Option Dtype → Nat
  | none => 8
  | some d => d.itemsize

/-- `memory(shape, dtype, memcheck)`: `None` memcheck yields 0; a 1-D shape `(k,)`
becomes `(1, k)`; otherwise `(memcheck(*shape) * itemsize) >> 20`. -/
def memory (shape : Shape) (dtype : Option Dtype) (memcheck : Option Pattern) : Nat :=
  match memcheck with
  | none => 0
  | some pat =>
    let byte := np_dtype_itemsize dtype
    let np := match shape with
      | .one k => (1, k)
      | .two n p => (n, p)
    (memory_usage pat np.1 np.2 * byte) >>> 20

/-- Python runtime values that can appear as wrapper arguments: `np.ndarray`,
`np.matrix` (always 2-D, `rows × cols`), `bool`, or anything else. -/
inductive Value where
  | arr (shape : Shape) (dtype : Dtype)
  | matrix (rows cols : Nat) (dtype : Dtype)
  | boolean (b : Bool)
  | scalarOther
deriving DecidableEq

/-- Errors raised by the wrapper pipeline (Python exception kinds, with the payload
the claims need). -/
inductive WErr where
  | idxNoArgs
  | idxTooMany
  | idxNotArray
  | idxMemKey
  | nameErr (msg : String)
  | assertErr
  | typeErr
  | tupleAssign
  | astypeFalse
  | memErr (need free extra : Nat)
  | memErrGeneric
deriving DecidableEq

/-- The result slot of `arg_process`: `noconv` is Python `False` (no conversion
needed), `nonec` is Python `None` (no classification), `conv d` a required target
dtype. -/
inductive DtRes where
  | noconv
  | nonec
  | conv (d : Dtype)
deriving DecidableEq

/-- `arg_process(x, square)`: classify one argument, returning the conversion memory
cost and the dtype slot.  Only exact `np.ndarray` values with more than one dimension
are inspected. -/
def arg_process (is64 : Bool) (x : Value) (square : Bool) : Except WErr (Nat × DtRes) :=
  match x with
  | .arr (.two n p) dtype =>
    if square ∧ n ≠ p then .error .assertErr
    else if dtype = .float32 ∨ dtype = maxFloat is64 ∨ dtype.isComplexFloating then
      .ok (0, .noconv)
    else if dtype.isInteger then
      let dt := if dtype = .uint64 ∨ dtype = .int64 then maxFloat is64 else Dtype.float32
      if dt ≠ dtype then .ok (memory (.two n p) (some dt) (some .same), .conv dt)
      else .ok (0, .nonec)
    else if dtype = .float16 then
      let dt := Dtype.float32
      if dt ≠ dtype then .ok (memory (.two n p) (some dt) (some .same), .conv dt)
      else .ok (0, .nonec)
    else .error .typeErr
  | _ => .ok (0, .nonec)

/-- Python keyword-argument dicts: insertion-ordered association lists. -/
abbrev Dict := List (String × Value)

/-- Dict lookup (`kwargs[k]`, as an `Option`). -/
def dget (d : Dict) (k : String) : Option Value :=
  match d with
  | [] => none
  | (k1, v) :: rest => if k1 = k then some v else dget rest k

/-- Dict update `kwargs[k] = v`: replace in place if the key exists, append otherwise. -/
def dset (d : Dict) (k : String) (v : Value) : Dict :=
  match d with
  | [] => [(k, v)]
  | (k1, v1) :: rest => if k1 = k then (k, v) :: rest else (k1, v1) :: dset rest k v

/-- Dict deletion `del kwargs[k]`. -/
def ddel (d : Dict) (k : String) : Dict :=
  match d with
  | [] => []
  | (k1, v1) :: rest => if k1 = k then rest else (k1, v1) :: ddel rest k

/-- Lines 116-138: arity checks, then the first positional argument must be an exact
`np.ndarray` (a `np.matrix` first argument reaches `args[0] = X`, a tuple item
assignment, hence `TypeError`). -/
def validate (no_args : Nat) (args : List Value) (kwargs : Dict) : Except WErr Unit :=
  if args.length + kwargs.length = 0 ∨ args.length = 0 then .error .idxNoArgs
  else if args.length + kwargs.length > no_args then .error .idxTooMany
  else
    match args with
    | .matrix _ _ _ :: _ => .error .tupleAssign
    | .arr _ _ :: _ => .ok ()
    | _ => .error .idxNotArray

/-- Lines 141-148: copy each boolean positional argument into
`kwargs[memory_keys[i]]`, count the `True` ones into `otherYes`, and record the
`duplicate` mask (an out-of-range `memory_keys[i]` is an `IndexError`). -/
def bool_scan (memory_keys : List String) (args : List Value) (i : Nat) (kw : Dict)
    (oy : Nat) : Except WErr (Dict × Nat × List Bool) :=
  match args with
  | [] => .ok (kw, oy, [])
  | .boolean b :: rest =>
    match memory_keys[i]? with
    | none => .error .idxMemKey
    | some k =>
      match bool_scan memory_keys rest (i + 1) (dset kw k (.boolean b))
          (oy + if b then 1 else 0) with
      | .ok (kw2, oy2, dup) => .ok (kw2, oy2, true :: dup)
      | .error e => .error e
  | _ :: rest =>
    match bool_scan memory_keys rest (i + 1) kw oy with
    | .ok (kw2, oy2, dup) => .ok (kw2, oy2, false :: dup)
    | .error e => .error e

/-- `str(signature(f))`, e.g. `(X, y)`. -/
def sig_string (params : List String) : String :=
  "(" ++ String.intercalate ", " params ++ ")"

/-- The NameError message of lines 158-159.  The first literal is not an f-string in
the source, so the text `\x7bx\x7d` stays verbatim; only the signature part is
interpolated. -/
def name_err_msg (params : List String) : String :=
  "Argument \x27\x7bx\x7d\x27 is not recognised in function. " ++
    "Function accepted signature is " ++ sig_string params ++ "."

/-- Lines 150-159: every key of `kwargs` must be a declared parameter, and `True`
boolean values add to `otherYes`. -/
def kwargs_check (params : List String) (kw : Dict) (oy : Nat) : Except WErr Nat :=
  match kw with
  | [] => .ok oy
  | (k, v) :: rest =>
    if params.contains k then
      kwargs_check params rest (oy + match v with | .boolean true => 1 | _ => 0)
    else .error (.nameErr (name_err_msg params))

/-- Set a boolean value to `False`, leave everything else alone. -/
def falsify (v : Value) : Value :=
  match v with
  | .boolean _ => .boolean false
  | v => v

/-- Lines 161-169: if `otherYes == memory_length - 1 or otherYes == 0`, set every
boolean keyword value to `False` and `kwargs["X"] = True`; otherwise
`kwargs["X"] = False`. -/
def resolve_flags (ml oy : Nat) (kw : Dict) : Dict :=
  if oy = ml - 1 ∨ oy = 0 then
    dset (kw.map (fun p => (p.1, falsify p.2))) "X" (.boolean true)
  else dset kw "X" (.boolean false)

/-- Lines 171-176: every declared memory key missing from `kwargs` is set to `False`. -/
def leftovers (keys : List String) (kw : Dict) : Dict :=
  match keys with
  | [] => kw
  | k :: rest =>
    leftovers rest (match dget kw k with
      | some _ => kw
      | none => dset kw k (.boolean false))

/-- `x.dtype` for array-like values. -/
def value_dtype : Value → Option Dtype
  | .arr _ d => some d
  | .matrix _ _ d => some d
  | _ => none

/-- `x.shape` for the validated first argument (non-arrays never reach this point). -/
def value_shape : Value → Shape
  | .arr sh _ => sh
  | .matrix r c _ => .two r c
  | _ => .one 0

/-- Lines 188-196 for `i == 0`: classify `args[0]` and fix `X_dtype` (`none` embeds
Python `None`): on `False` it is the array's own dtype and the slot becomes `None`,
otherwise it is the slot itself. -/
def classify_head (is64 : Bool) (square : Bool) (x : Value) :
    Except WErr (Nat × DtRes × Option Dtype) :=
  match arg_process is64 x square with
  | .error e => .error e
  | .ok (n, dt) =>
    match dt with
    | .noconv => .ok (n, .nonec, value_dtype x)
    | .nonec => .ok (n, .nonec, none)
    | .conv d => .ok (n, .conv d, some d)

/-- Lines 182-196 for `i != 0`: a `np.matrix` here is rewritten into the `args`
tuple (`TypeError`); otherwise classify and accumulate. -/
def classify_tail (is64 : Bool) (square : Bool) : List Value → Except WErr (Nat × List DtRes)
  | [] => .ok (0, [])
  | .matrix _ _ _ :: _ => .error .tupleAssign
  | x :: rest =>
    match arg_process is64 x square with
    | .error e => .error e
    | .ok (n, dt) =>
      match classify_tail is64 square rest with
      | .error e => .error e
      | .ok (need, nds) => .ok (n + need, dt :: nds)

/-- `np.matrix` normalization of lines 200-201: single-row matrices flatten to 1-D
(`A1`), others materialize to 2-D (`A`). -/
def matrix_to_array (v : Value) : Value :=
  match v with
  | .matrix r c d => if r = 1 then .arr (.one c) d else .arr (.two r c) d
  | v => v

/-- Lines 198-205: normalize matrix keyword values in place, classify every keyword
value, and accumulate cost and dtype slots in dict order. -/
def classify_kwargs (is64 : Bool) (square : Bool) : Dict → Except WErr (Dict × Nat × List DtRes)
  | [] => .ok ([], 0, [])
  | (k, v) :: rest =>
    let v2 := matrix_to_array v
    match arg_process is64 v2 square with
    | .error e => .error e
    | .ok (n, dt) =>
      match classify_kwargs is64 square rest with
      | .error e => .error e
      | .ok (kwr, need, nds) => .ok ((k, v2) :: kwr, n + need, dt :: nds)

/-- Lines 210-213: scan the declared memory keys in order and use the first one whose
keyword value is `True`. -/
def x_pattern_need (kw : Dict) : List (String × Pattern) → Option Pattern
  | [] => none
  | (k, pat) :: rest =>
    if dget kw k = some (.boolean true) then some pat else x_pattern_need kw rest

/-- Line 217: `int(virtual_memory().available * MAX_MEMORY) >> 20`, with the 0.94
scaling in exact arithmetic (`* 94 / 100`). -/
def free_mb (avail : Nat) : Nat := (avail * 94 / 100) >>> 20

/-- Lines 222-228: converting any positional argument (slot not `None`) assigns into
the `args` tuple, a `TypeError`. -/
def convert_pos : List DtRes → Except WErr Unit
  | [] => .ok ()
  | .nonec :: rest => convert_pos rest
  | _ :: _ => .error .tupleAssign

/-- `x.astype(d)`: a fresh array with the new dtype, same shape. -/
def astype (v : Value) (d : Dtype) : Value :=
  match v with
  | .arr sh _ => .arr sh d
  | v => v

/-- Lines 229-233: convert keyword values per their dtype slots; a `False` slot means
`kwargs[i].astype(False)`, which numpy rejects with `TypeError`. -/
def convert_kwargs : Dict → List DtRes → Except WErr Dict
  | kw, [] => .ok kw
  | [], _ => .ok []
  | (k, v) :: rest, dt :: dts =>
    match dt with
    | .nonec =>
      match convert_kwargs rest dts with
      | .error e => .error e
      | .ok r => .ok ((k, v) :: r)
    | .noconv => .error .astypeFalse
    | .conv d =>
      match convert_kwargs rest dts with
      | .error e => .error e
      | .ok r => .ok ((k, astype v d) :: r)

/-- Lines 236-240: deleting any duplicate boolean position (index ≥ 1) from the
`args` tuple is a `TypeError`. -/
def cleanup_pos (dup : List Bool) : Except WErr Unit :=
  if (dup.drop 1).any (fun b => b) then .error .tupleAssign else .ok ()

/-- Everything the wrapper computes before the admission check: the accumulated
`need`, the keyword dict as of line 205, the positional and keyword dtype slots, and
the duplicate mask. -/
structure PrepOut where
  need : Nat
  kw : Dict
  nd_pos : List DtRes
  nd_kw : List DtRes
  dup : List Bool
deriving DecidableEq

/-- Lines 116-213 of `wrapper`: validation, boolean scan, keyword check, flag
resolution, leftovers, classification of all arguments, and the primary-pattern cost. -/
def prepare (is64 : Bool) (params : List String) (memcheck : List (String × Pattern))
    (square : Bool) (args : List Value) (kwargs : Dict) : Except WErr PrepOut :=
  match validate params.length args kwargs with
  | .error e => .error e
  | .ok () =>
    match bool_scan (memcheck.map Prod.fst) args 0 kwargs 0 with
    | .error e => .error e
    | .ok (kw1, oy1, dup) =>
      match kwargs_check params kw1 oy1 with
      | .error e => .error e
      | .ok oy =>
        let kw2 := leftovers (memcheck.map Prod.fst) (resolve_flags memcheck.length oy kw1)
        match classify_head is64 square (args.headD .scalarOther) with
        | .error e => .error e
        | .ok (needH, ndH, xdt) =>
          match classify_tail is64 square args.tail with
          | .error e => .error e
          | .ok (needT, ndT) =>
            match classify_kwargs is64 square kw2 with
            | .error e => .error e
            | .ok (kw3, needK, ndK) =>
              .ok ⟨needH + needT + needK +
                memory (value_shape (args.headD .scalarOther)) xdt (x_pattern_need kw3 memcheck),
                kw3, ndH :: ndT, ndK, dup⟩

/-- Lines 215-248 after `prepare`: the admission check, the conversions, the cleanup
of duplicates and of the `"X"` bookkeeping key. -/
def after_admission (st : PrepOut) (args : List Value) : Except WErr (List Value × Dict) :=
  match convert_pos st.nd_pos with
  | .error e => .error e
  | .ok () =>
    match convert_kwargs st.kw st.nd_kw with
    | .error e => .error e
    | .ok kw4 =>
      match cleanup_pos st.dup with
      | .error e => .error e
      | .ok () => .ok (args, ddel kw4 "X")

/-- The whole `wrapper` body up to (but not including) the call of `f`: on success it
returns the positional and keyword arguments `f` is invoked with. -/
def wrapper_core (is64 : Bool) (params : List String) (memcheck : List (String × Pattern))
    (square : Bool) (avail : Nat) (args : List Value) (kwargs : Dict) :
    Except WErr (List Value × Dict) :=
  match prepare is64 params memcheck square args kwargs with
  | .error e => .error e
  | .ok st =>
    if 0 < st.need ∧ free_mb avail < st.need then
      .error (.memErr st.need (free_mb avail) (st.need - free_mb avail))
    else after_admission st args

/-- Behavior of the wrapped function on the arguments it receives: return normally or
raise `MemoryError`. -/
inductive FBeh where
  | ret
  | raiseMem
deriving DecidableEq

/-- Lines 244-248: invoke `f`; a `MemoryError` escaping `f` is caught once and
re-raised as the generic exhaustion `MemoryError`. -/
def wrapper_run (fbeh : List Value → Dict → FBeh) (is64 : Bool) (params : List String)
    (memcheck : List (String × Pattern)) (square : Bool) (avail : Nat)
    (args : List Value) (kwargs : Dict) : Except WErr Unit :=
  match wrapper_core is64 params memcheck square avail args kwargs with
  | .error e => .error e
  | .ok (fa, fk) =>
    match fbeh fa fk with
    | .ret => .ok ()
    | .raiseMem => .error .memErrGeneric

/-- Errors raised while `process` builds the decorator. -/
inductive PErr where
  | keyErr (k : String)
  | typeErrNoLen
deriving DecidableEq

/-- Lookup in the `memory_usage` dict by string key. -/
def pattern_of_name (s : String) : Option Pattern :=
  if s = "full" then some .full
  else if s = "same" then some .same
  else if s = "triu" then some .triu
  else if s = "squared" then some .squared
  else if s = "columns" then some .columns
  else none

/-- The `memcheck` argument of `process`: `None`, a single pattern string, or a dict
from argument name to pattern string. -/
inductive MemcheckArg where
  | noneArg
  | strArg (s : String)
  | dictArg (t : List (String × String))
deriving DecidableEq

/-- Lines 100-105: replace each pattern string by its `memory_usage` entry, raising
`KeyError` (naming the argument) on an unrecognised pattern. -/
def resolve_table : List (String × String) → Except PErr (List (String × Pattern))
  | [] => .ok []
  | (k, s) :: rest =>
    match pattern_of_name s with
    | none => .error (.keyErr k)
    | some pat =>
      match resolve_table rest with
      | .error e => .error e
      | .ok r => .ok ((k, pat) :: r)

/-- The closure state `decorate` captures: the declared parameters, the resolved
memcheck table, and the `square` flag. -/
structure Guard where
  params : List String
  memcheck : List (String × Pattern)
  square : Bool
deriving DecidableEq

/-- Lines 96-112 of `process`: a string becomes `{"X": s}`, a dict is resolved
entry-wise; then `decorate` computes `len(memcheck)` and `list(memcheck.keys())`,
which on a `None` memcheck raises `TypeError` (`len(None)`). -/
def process (params : List String) (mc : MemcheckArg) (square : Bool) :
    Except PErr Guard :=
  match mc with
  | .noneArg => .error .typeErrNoLen
  | .strArg s =>
    match resolve_table [("X", s)] with
    | .error e => .error e
    | .ok t => .ok ⟨params, t, square⟩
  | .dictArg t =>
    match resolve_table t with
    | .error e => .error e
    | .ok t2 => .ok ⟨params, t2, square⟩

/-- The state of a `lapack` dispatch object: the routine base name, the `turbo` flag,
and the memoized binding (`None` until the first call); a bound routine is carried as
its resolved name. -/
structure LapackState where
  function : String
  turbo : Bool
  f : Option String
deriving DecidableEq

/-- `lapack.__init__`: with a numba name the constructor tries
`eval(f"_numba.{numba}")`; the `hyperlearn2.numba` module is not in src, so the
outcome of that lookup is passed in as `some (name, result)` (`result = none` models
the swallowed exception of the bare `except: pass`). -/
def lapack_init (function : String) (numba : Option (String × Option String))
    (turbo : Bool) : LapackState :=
  match numba with
  | none => ⟨function, turbo, none⟩
  | some (name, some r) => ⟨name, turbo, some r⟩
  | some (_, none) => ⟨function, turbo, none⟩

/-- Lines 284-287: the dtype inspected on an unbound call: `args[0].dtype` if
positional arguments exist, else the first keyword value's dtype (`none` embeds the
`AttributeError`/`StopIteration` of a valueless call). -/
def first_dtype (args : List Value) (kwargs : Dict) : Option Dtype :=
  match args with
  | x :: _ => value_dtype x
  | [] =>
    match kwargs with
    | (_, v) :: _ => value_dtype v
    | [] => none

/-- `lapack.__call__`: forward directly once bound; otherwise pick the `s`/`d`/`c`/`z`
variant from the first argument's dtype, memoize it, and call it.  Returns the new
state and the name of the routine invoked. -/
def lapack_call (st : LapackState) (args : List Value) (kwargs : Dict) :
    Option (LapackState × String) :=
  match st.f with
  | some r => some (st, r)
  | none =>
    match first_dtype args kwargs with
    | none => none
    | some dtype =>
      let r :=
        if dtype = .float32 ∧ st.turbo = true then "s" ++ st.function
        else if dtype = .float64 ∨ st.turbo = false then "d" ++ st.function
        else if dtype = .complex64 then "c" ++ st.function
        else "z" ++ st.function
      some (⟨st.function, st.turbo, some r⟩, r)

/-- Whether `need` starts `hay` (character-wise). -/
def leadMatch : List Char → List Char → Bool
  | [], _ => true
  | _ :: _, [] => false
  | a :: as, b :: bs => (a == b) && leadMatch as bs

/-- Whether `need` occurs as a contiguous substring of `hay`. -/
def hasSub (need : List Char) : List Char → Bool
  | [] => leadMatch need []
  | h :: t => leadMatch need (h :: t) || hasSub need t

deriving instance DecidableEq for Except

theorem dget_dset (d : Dict) (k2 : String) (v : Value) (k : String) :
    dget (dset d k2 v) k = if k2 = k then some v else dget d k := by
  induction d with
  | nil => simp [dset, dget]
  | cons h t ih =>
    obtain ⟨k1, v1⟩ := h
    by_cases h1 : k1 = k2
    · subst h1
      simp only [dset, if_pos rfl, dget]
      by_cases h2 : k1 = k <;> simp [h2]
    · simp only [dset, if_neg h1, dget]
      by_cases h2 : k1 = k
      · subst h2
        have : ¬ k2 = k1 := fun h => h1 h.symm
        simp [this]
      · simp [h2, ih]

theorem dget_map_val (f : Value → Value) (d : Dict) (k : String) :
    dget (d.map (fun p => (p.1, f p.2))) k = (dget d k).map f := by
  induction d with
  | nil => simp [dget]
  | cons h t ih =>
    obtain ⟨k1, v1⟩ := h
    by_cases h1 : k1 = k <;> simp [dget, h1, ih]

theorem dget_ddel_ne (d : Dict) (k2 k : String) (h : k ≠ k2) :
    dget (ddel d k2) k = dget d k := by
  induction d with
  | nil => simp [ddel]
  | cons hd t ih =>
    obtain ⟨k1, v1⟩ := hd
    by_cases h1 : k1 = k2
    · subst h1
      have : ¬ k1 = k := fun hh => h (hh.symm ▸ rfl)
      simp [ddel, dget, this]
    · by_cases h2 : k1 = k <;> simp [ddel, dget, h1, h2, ih, h]

theorem leftovers_dget_some (keys : List String) (d : Dict) (k : String) (v : Value)
    (h : dget d k = some v) : dget (leftovers keys d) k = some v := by
  induction keys generalizing d with
  | nil => exact h
  | cons k1 rest ih =>
    simp only [leftovers]
    cases h1 : dget d k1 with
    | some w => exact ih d h
    | none =>
      apply ih
      rw [dget_dset]
      by_cases h2 : k1 = k
      · subst h2
        rw [h1] at h
        exact absurd h (by simp)
      · simp [h2, h]

theorem leftovers_dget_or (keys : List String) (d : Dict) (k : String) :
    dget (leftovers keys d) k = dget d k
      ∨ dget (leftovers keys d) k = some (.boolean false) := by
  induction keys generalizing d with
  | nil => left; simp [leftovers]
  | cons k1 rest ih =>
    simp only [leftovers]
    cases h1 : dget d k1 with
    | some w => exact ih d
    | none =>
      rcases ih (dset d k1 (.boolean false)) with h | h
      · rw [dget_dset] at h
        by_cases h2 : k1 = k
        · right; simpa [h2] using h
        · left; simpa [h2] using h
      · right; exact h

theorem falsify_ne_true (v : Value) : falsify v ≠ .boolean true := by
  cases v <;> simp [falsify]

theorem falsify_boolean (b : Bool) : falsify (.boolean b) = .boolean false := rfl

theorem matrix_to_array_boolean (b : Bool) :
    matrix_to_array (.boolean b) = .boolean b := rfl

theorem matrix_to_array_eq_true (v : Value)
    (h : matrix_to_array v = .boolean true) : v = .boolean true := by
  cases v with
  | matrix r c d =>
    simp only [matrix_to_array] at h
    by_cases h1 : r = 1 <;> simp [h1] at h
  | arr sh d => simp [matrix_to_array] at h
  | boolean b => simpa [matrix_to_array] using h
  | scalarOther => simp [matrix_to_array] at h

theorem astype_boolean (b : Bool) (d : Dtype) : astype (.boolean b) d = .boolean b := rfl

theorem astype_eq_true (v : Value) (d : Dtype)
    (h : astype v d = .boolean true) : v = .boolean true := by
  cases v <;> simp_all [astype]

theorem classify_kwargs_ok_map (is64 : Bool) (square : Bool) (kw kw3 : Dict)
    (need : Nat) (nds : List DtRes)
    (h : classify_kwargs is64 square kw = .ok (kw3, need, nds)) :
    kw3 = kw.map (fun p => (p.1, matrix_to_array p.2)) := by
  induction kw generalizing kw3 need nds with
  | nil =>
    simp only [classify_kwargs, Except.ok.injEq, Prod.mk.injEq] at h
    simp [← h.1]
  | cons hd t ih =>
    obtain ⟨k, v⟩ := hd
    simp only [classify_kwargs] at h
    cases h1 : arg_process is64 (matrix_to_array v) square with
    | error e => simp [h1] at h
    | ok nd =>
      simp only [h1] at h
      cases h2 : classify_kwargs is64 square t with
      | error e => simp [h2] at h
      | ok r =>
        obtain ⟨kwr, needr, ndsr⟩ := r
        simp only [h2, Except.ok.injEq, Prod.mk.injEq] at h
        rw [← h.1]
        simp [ih kwr needr ndsr h2]

theorem bool_scan_keeps_boolean (keys : List String) (args : List Value) (i : Nat)
    (kw kw1 : Dict) (oy oy1 : Nat) (dup : List Bool) (k : String) (b : Bool)
    (hs : bool_scan keys args i kw oy = .ok (kw1, oy1, dup))
    (h : dget kw k = some (.boolean b)) :
    ∃ b2, dget kw1 k = some (.boolean b2) := by
  induction args generalizing i kw oy kw1 oy1 dup b with
  | nil =>
    simp only [bool_scan, Except.ok.injEq, Prod.mk.injEq] at hs
    exact ⟨b, hs.1 ▸ h⟩
  | cons x rest ih =>
    cases x with
    | boolean c =>
      simp only [bool_scan] at hs
      cases h1 : keys[i]? with
      | none => simp [h1] at hs
      | some key =>
        simp only [h1] at hs
        cases h2 : bool_scan keys rest (i + 1) (dset kw key (.boolean c))
            (oy + if c then 1 else 0) with
        | error e => simp [h2] at hs
        | ok r =>
          obtain ⟨kw2, oy2, dup2⟩ := r
          simp only [h2, Except.ok.injEq, Prod.mk.injEq] at hs
          obtain ⟨hkw, -, -⟩ := hs
          subst hkw
          by_cases h3 : key = k
          · exact ih _ _ _ _ _ _ _ h2 (by rw [dget_dset, if_pos h3])
          · exact ih _ _ _ _ _ _ _ h2 (by rw [dget_dset, if_neg h3]; exact h)
    | arr sh d =>
      simp only [bool_scan] at hs
      cases h2 : bool_scan keys rest (i + 1) kw oy with
      | error e => simp [h2] at hs
      | ok r =>
        obtain ⟨kw2, oy2, dup2⟩ := r
        simp only [h2, Except.ok.injEq, Prod.mk.injEq] at hs
        obtain ⟨hkw, -, -⟩ := hs
        subst hkw
        exact ih _ _ _ _ _ _ _ h2 h
    | matrix r c d =>
      simp only [bool_scan] at hs
      cases h2 : bool_scan keys rest (i + 1) kw oy with
      | error e => simp [h2] at hs
      | ok rr =>
        obtain ⟨kw2, oy2, dup2⟩ := rr
        simp only [h2, Except.ok.injEq, Prod.mk.injEq] at hs
        obtain ⟨hkw, -, -⟩ := hs
        subst hkw
        exact ih _ _ _ _ _ _ _ h2 h
    | scalarOther =>
      simp only [bool_scan] at hs
      cases h2 : bool_scan keys rest (i + 1) kw oy with
      | error e => simp [h2] at hs
      | ok rr =>
        obtain ⟨kw2, oy2, dup2⟩ := rr
        simp only [h2, Except.ok.injEq, Prod.mk.injEq] at hs
        obtain ⟨hkw, -, -⟩ := hs
        subst hkw
        exact ih _ _ _ _ _ _ _ h2 h

theorem convert_kwargs_keeps_boolean (kw kw4 : Dict) (nds : List DtRes) (k : String)
    (b : Bool) (hc : convert_kwargs kw nds = .ok kw4)
    (h : dget kw k = some (.boolean b)) :
    dget kw4 k = some (.boolean b) := by
  induction kw generalizing nds kw4 with
  | nil =>
    cases nds <;> simp only [convert_kwargs, Except.ok.injEq] at hc <;>
      subst hc <;> simp_all [dget]
  | cons hd t ih =>
    obtain ⟨k1, v1⟩ := hd
    cases nds with
    | nil =>
      simp only [convert_kwargs, Except.ok.injEq] at hc
      exact hc ▸ h
    | cons dt dts =>
      cases dt with
      | nonec =>
        simp only [convert_kwargs] at hc
        cases h2 : convert_kwargs t dts with
        | error e => simp [h2] at hc
        | ok r =>
          simp only [h2, Except.ok.injEq] at hc
          subst hc
          simp only [dget] at h ⊢
          by_cases h3 : k1 = k
          · simpa [h3] using h
          · simp only [if_neg h3] at h ⊢
            exact ih r dts h2 h
      | noconv => simp [convert_kwargs] at hc
      | conv d =>
        simp only [convert_kwargs] at hc
        cases h2 : convert_kwargs t dts with
        | error e => simp [h2] at hc
        | ok r =>
          simp only [h2, Except.ok.injEq] at hc
          subst hc
          simp only [dget] at h ⊢
          by_cases h3 : k1 = k
          · simp only [if_pos h3] at h ⊢
            injection h with h
            subst h
            rfl
          · simp only [if_neg h3] at h ⊢
            exact ih r dts h2 h

theorem convert_kwargs_no_new_true (kw kw4 : Dict) (nds : List DtRes) (k : String)
    (hc : convert_kwargs kw nds = .ok kw4)
    (h : dget kw k ≠ some (.boolean true)) :
    dget kw4 k ≠ some (.boolean true) := by
  induction kw generalizing nds kw4 with
  | nil =>
    cases nds <;> simp only [convert_kwargs, Except.ok.injEq] at hc <;>
      subst hc <;> simp_all [dget]
  | cons hd t ih =>
    obtain ⟨k1, v1⟩ := hd
    cases nds with
    | nil =>
      simp only [convert_kwargs, Except.ok.injEq] at hc
      exact hc ▸ h
    | cons dt dts =>
      cases dt with
      | nonec =>
        simp only [convert_kwargs] at hc
        cases h2 : convert_kwargs t dts with
        | error e => simp [h2] at hc
        | ok r =>
          simp only [h2, Except.ok.injEq] at hc
          subst hc
          simp only [dget] at h ⊢
          by_cases h3 : k1 = k
          · simpa [h3] using h
          · simp only [if_neg h3] at h ⊢
            exact ih r dts h2 h
      | noconv => simp [convert_kwargs] at hc
      | conv d =>
        simp only [convert_kwargs] at hc
        cases h2 : convert_kwargs t dts with
        | error e => simp [h2] at hc
        | ok r =>
          simp only [h2, Except.ok.injEq] at hc
          subst hc
          simp only [dget] at h ⊢
          by_cases h3 : k1 = k
          · simp only [if_pos h3] at h ⊢
            intro hx
            injection hx with hx
            exact h (by rw [astype_eq_true v1 d hx])
          · simp only [if_neg h3] at h ⊢
            exact ih r dts h2 h

theorem convert_pos_error (nds : List DtRes) (e : WErr)
    (h : convert_pos nds = .error e) : e = .tupleAssign := by
  induction nds with
  | nil => simp [convert_pos] at h
  | cons dt dts ih =>
    cases dt with
    | nonec =>
      apply ih
      simpa [convert_pos] using h
    | noconv =>
      simp only [convert_pos, Except.error.injEq] at h
      exact h.symm
    | conv d =>
      simp only [convert_pos, Except.error.injEq] at h
      exact h.symm

theorem convert_kwargs_error (kw : Dict) (nds : List DtRes) (e : WErr)
    (h : convert_kwargs kw nds = .error e) : e = .astypeFalse := by
  induction kw generalizing nds e with
  | nil => cases nds <;> simp [convert_kwargs] at h
  | cons hd t ih =>
    obtain ⟨k1, v1⟩ := hd
    cases nds with
    | nil => simp [convert_kwargs] at h
    | cons dt dts =>
      cases dt with
      | nonec =>
        simp only [convert_kwargs] at h
        cases h2 : convert_kwargs t dts with
        | error e2 =>
          simp only [h2, Except.error.injEq] at h
          exact h ▸ ih dts e2 h2
        | ok r => simp [h2] at h
      | noconv =>
        simp only [convert_kwargs, Except.error.injEq] at h
        exact h.symm
      | conv d =>
        simp only [convert_kwargs] at h
        cases h2 : convert_kwargs t dts with
        | error e2 =>
          simp only [h2, Except.error.injEq] at h
          exact h ▸ ih dts e2 h2
        | ok r => simp [h2] at h

theorem cleanup_pos_error (dup : List Bool) (e : WErr)
    (h : cleanup_pos dup = .error e) : e = .tupleAssign := by
  simp only [cleanup_pos] at h
  by_cases h1 : (dup.drop 1).any (fun b => b)
  · rw [if_pos h1] at h; injection h with h; exact h.symm
  · rw [if_neg h1] at h; exact absurd h (by simp)

theorem after_admission_no_memErr (st : PrepOut) (args : List Value)
    (a b c : Nat) : after_admission st args ≠ .error (.memErr a b c) := by
  intro h
  simp only [after_admission] at h
  cases h1 : convert_pos st.nd_pos with
  | error e =>
    rw [h1] at h
    injection h with h
    exact absurd (h ▸ convert_pos_error _ _ h1) (by simp)
  | ok u =>
    rw [h1] at h
    cases h2 : convert_kwargs st.kw st.nd_kw with
    | error e =>
      rw [h2] at h
      injection h with h
      exact absurd (h ▸ convert_kwargs_error _ _ _ h2) (by simp)
    | ok kw4 =>
      rw [h2] at h
      cases h3 : cleanup_pos st.dup with
      | error e =>
        rw [h3] at h
        injection h with h
        exact absurd (h ▸ cleanup_pos_error _ _ h3) (by simp)
      | ok u2 => rw [h3] at h; exact absurd h (by simp)

/-- C6: for every 2-D shape `(n, p)` and every element byte width (as realized by a
dtype argument, including Python `None`), the estimator under the `full` pattern
returns `floor((n*p + min(n², p²)) * byte / 2^20)` megabytes, and a 1-D shape `(k,)`
is first normalized to `(1, k)` before any pattern is applied. -/
theorem memory_full_formula (n p k : Nat) (d : Option Dtype) (mc : Option Pattern) :
    memory (.two n p) d (some .full)
        = (n * p + min (n ^ 2) (p ^ 2)) * np_dtype_itemsize d / 2 ^ 20
      ∧ memory (.one k) d mc = memory (.two 1 k) d mc := by
  constructor
  · simp [memory, memory_usage, _min, Nat.shiftRight_eq_div_pow]
  · cases mc <;> rfl

/-- C10: classifying any 1-D array returns cost 0 and the `None` sentinel for every
dtype and every `square` setting; the square-shape and unsupported-dtype checks are
reached only for arrays of more than one dimension. -/
theorem arg_process_one_dim_nonec (is64 : Bool) (k : Nat) (d : Dtype) (square : Bool) :
    arg_process is64 (.arr (.one k) d) square = .ok (0, .nonec) := rfl

/-- C5 (code bug): configuring `process` with no usage-pattern mapping
(`memcheck=None`) does not produce a working wrapper; `decorate` evaluates
`len(memcheck)` on `None` and raises `TypeError`. -/
theorem process_none_memcheck_typeError (params : List String) (square : Bool) :
    process params .noneArg square = .error .typeErrNoLen := rfl

/-- C4 (code bug): a keyword argument whose name is not a declared parameter fails
with `NameError`, but since line 158 is not an f-string, the message carries the
literal placeholder text rather than the offending key; it does contain the accepted
signature.  Evaluated at the failing input `alpha`. -/
theorem unknown_kwarg_nameError_message :
    wrapper_core true ["X", "y"] [("X", .same)] false 0
        [.arr (.two 2 2) .float32] [("alpha", .scalarOther)]
      = .error (.nameErr (name_err_msg ["X", "y"]))
    ∧ hasSub "alpha".data (name_err_msg ["X", "y"]).data = false
    ∧ hasSub (sig_string ["X", "y"]).data (name_err_msg ["X", "y"]).data = true := by
  refine ⟨rfl, by decide, by decide⟩

/-- C8: a `lapack` resolver built for `"getrf"` with no numba fast path, first called
with a float32 array, binds and invokes the single-real variant `sgetrf` and
memoizes it; every later call on the bound state — in particular one with a float64
array, and indeed any argument list at all, showing dtype is not re-inspected —
invokes the memoized `sgetrf` and leaves the state unchanged. -/
theorem lapack_memoized_binding (sh : Shape) (args2 : List Value) (kw2 : Dict) :
    lapack_call (lapack_init "getrf" none true) [.arr sh .float32] []
        = some (⟨"getrf", true, some "sgetrf"⟩, "sgetrf")
      ∧ lapack_call ⟨"getrf", true, some "sgetrf"⟩ args2 kw2
        = some (⟨"getrf", true, some "sgetrf"⟩, "sgetrf") :=
  ⟨rfl, rfl⟩

/-- C1 (counterexample): with usage pattern `full`, `requireSquare` false, and a
single 1000×1000 float16 array, the call does not succeed even with ample memory
(50000 MB): past the admission check the wrapper assigns the converted float32 array
into the immutable `args` tuple and dies with `TypeError`. -/
theorem end_to_end_float16_no_success :
    process ["X"] (.strArg "full") false = .ok ⟨["X"], [("X", .full)], false⟩
    ∧ wrapper_core true ["X"] [("X", .full)] false (50000 * 2 ^ 20)
        [.arr (.two 1000 1000) .float16] [] = .error .tupleAssign
    ∧ ∀ r, wrapper_core true ["X"] [("X", .full)] false (50000 * 2 ^ 20)
        [.arr (.two 1000 1000) .float16] [] ≠ .ok r := by
  refine ⟨rfl, rfl, fun r h => ?_⟩
  rw [show wrapper_core true ["X"] [("X", .full)] false (50000 * 2 ^ 20)
      [.arr (.two 1000 1000) .float16] [] = .error .tupleAssign from rfl] at h
  exact Except.noConfusion h

/-- C1 (amended): the 1000×1000 float16 scenario accumulates a requirement of 10 MB
(3 MB float32 conversion + 7 MB `full`-pattern cost); the admission budget is 47 MB
at 50 MB available and 47000 MB at 50000 MB available, so the admission check passes
in both cases and no MemoryError is raised; the call then fails with `TypeError` in
both cases when the wrapper assigns the converted array into the `args` tuple. -/
theorem end_to_end_float16_tuple_type_error :
    (prepare true ["X"] [("X", .full)] false [.arr (.two 1000 1000) .float16] []).map
        (fun st => st.need) = .ok 10
    ∧ free_mb (50 * 2 ^ 20) = 47
    ∧ free_mb (50000 * 2 ^ 20) = 47000
    ∧ wrapper_core true ["X"] [("X", .full)] false (50 * 2 ^ 20)
        [.arr (.two 1000 1000) .float16] [] = .error .tupleAssign
    ∧ wrapper_core true ["X"] [("X", .full)] false (50000 * 2 ^ 20)
        [.arr (.two 1000 1000) .float16] [] = .error .tupleAssign :=
  ⟨rfl, rfl, rfl, rfl, rfl⟩

/-- C7: classifying a 2-D 64-bit-integer array (signed or unsigned) yields the
platform maxFloat as target dtype, at a cost equal to the `same`-pattern estimate
over the array's shape at the promoted byte width; a 2-D array already in float32,
platform maxFloat, or any complex floating dtype yields cost 0 and the
no-conversion sentinel (classification is a pure function of the value — the array
is not mutated). -/
theorem arg_process_int64_promotion (is64 : Bool) (n p : Nat) (square : Bool)
    (d : Dtype) (hsq : square = false ∨ n = p) :
    arg_process is64 (.arr (.two n p) .int64) square
        = .ok (n * p * (maxFloat is64).itemsize / 2 ^ 20, .conv (maxFloat is64))
    ∧ arg_process is64 (.arr (.two n p) .uint64) square
        = .ok (n * p * (maxFloat is64).itemsize / 2 ^ 20, .conv (maxFloat is64))
    ∧ (d = .float32 ∨ d = maxFloat is64 ∨ d.isComplexFloating = true →
        arg_process is64 (.arr (.two n p) d) square = .ok (0, .noconv)) := by
  have hsq2 : ¬ (square ∧ n ≠ p) := by
    rcases hsq with h | h
    · subst h; simp
    · subst h; simp
  refine ⟨?_, ?_, ?_⟩
  · cases is64 <;>
      simp [arg_process, hsq2, maxFloat, memory, memory_usage, np_dtype_itemsize,
        Dtype.itemsize, Dtype.isInteger, Dtype.isComplexFloating,
        Nat.shiftRight_eq_div_pow]
  · cases is64 <;>
      simp [arg_process, hsq2, maxFloat, memory, memory_usage, np_dtype_itemsize,
        Dtype.itemsize, Dtype.isInteger, Dtype.isComplexFloating,
        Nat.shiftRight_eq_div_pow]
  · intro hd
    cases is64 <;> cases d <;>
      simp_all [arg_process, hsq2, maxFloat, Dtype.isComplexFloating]

/-- C7 witness: the int64 and complex128 cases at the concrete square 2×2 shape with
`requireSquare` on. -/
theorem arg_process_int64_promotion_witness :
    arg_process true (.arr (.two 2 2) .int64) true
        = .ok (2 * 2 * (maxFloat true).itemsize / 2 ^ 20, .conv (maxFloat true))
    ∧ arg_process true (.arr (.two 2 2) .complex128) true = .ok (0, .noconv) :=
  ⟨(arg_process_int64_promotion true 2 2 true .complex128 (Or.inr rfl)).1,
    (arg_process_int64_promotion true 2 2 true .complex128 (Or.inr rfl)).2.2
      (Or.inr (Or.inr rfl))⟩

/-- C2: for every guarded call whose accumulated requirement `need` is positive, the
available memory is scaled by the 0.94 margin and converted to megabytes, and the
call fails with `MemoryError` carrying required, available and shortfall megabytes
exactly when `need` exceeds that budget; when it does not, no admission-control
`MemoryError` is ever produced; and a `MemoryError` raised inside the wrapped
function is caught once and re-raised as the generic exhaustion error. -/
theorem admission_control_memError (is64 : Bool) (params : List String)
    (memcheck : List (String × Pattern)) (square : Bool) (avail : Nat)
    (args : List Value) (kwargs : Dict) (st : PrepOut)
    (hp : prepare is64 params memcheck square args kwargs = .ok st)
    (hn : 0 < st.need) :
    (free_mb avail < st.need →
        wrapper_core is64 params memcheck square avail args kwargs
          = .error (.memErr st.need (free_mb avail) (st.need - free_mb avail)))
    ∧ (st.need ≤ free_mb avail →
        ∀ a b c, wrapper_core is64 params memcheck square avail args kwargs
          ≠ .error (.memErr a b c))
    ∧ (∀ fa fk, wrapper_core is64 params memcheck square avail args kwargs
          = .ok (fa, fk) →
        wrapper_run (fun _ _ => .raiseMem) is64 params memcheck square avail args kwargs
          = .error .memErrGeneric) := by
  refine ⟨?_, ?_, ?_⟩
  · intro h
    simp only [wrapper_core, hp]
    rw [if_pos ⟨hn, h⟩]
  · intro hle a b c hEq
    simp only [wrapper_core, hp] at hEq
    rw [if_neg (fun hand => absurd hand.2 (Nat.not_lt.mpr hle))] at hEq
    exact after_admission_no_memErr st args a b c hEq
  · intro fa fk hok
    simp only [wrapper_run, hok]

/-- C2 witness: a clean 1000×1000 float32 call under the `full` pattern needs 7 MB;
with 1 MB available the budget is 0 MB and the call fails with
`MemoryError(7, 0, 7)`. -/
theorem admission_control_memError_witness :
    wrapper_core true ["X"] [("X", .full)] false (2 ^ 20)
        [.arr (.two 1000 1000) .float32] [] = .error (.memErr 7 0 7) :=
  (admission_control_memError true ["X"] [("X", .full)] false (2 ^ 20)
      [.arr (.two 1000 1000) .float32] []
      ⟨7, [("X", Value.boolean true)], [DtRes.nonec], [DtRes.nonec], [false]⟩
      rfl (by decide)).1 (by decide)

/-- C3 (counterexample): with four declared memory keys and the two flags `a`, `b`
supplied `True` by keyword, `otherYes = 2` is neither `0` nor `len(keys) - 1 = 3`,
so the else branch leaves both supplied flags `True`: the wrapped function receives
two `True` memory-check flags, refuting "exactly one flag resolves true". -/
theorem flag_resolution_two_true_flags :
    wrapper_core true ["X", "a", "b", "c"]
        [("X", .full), ("a", .same), ("b", .same), ("c", .same)] false 0
        [.arr (.two 2 2) .float32] [("a", .boolean true), ("b", .boolean true)]
      = .ok ([.arr (.two 2 2) .float32],
          [("a", .boolean true), ("b", .boolean true), ("c", .boolean false)])
    ∧ (["a", "b", "c"].countP (fun k =>
        decide (dget [("a", Value.boolean true), ("b", Value.boolean true),
          ("c", Value.boolean false)] k = some (Value.boolean true)))) = 2 := by
  refine ⟨rfl, by decide⟩

/-- C3 (amended): flag resolution is branch-conditional, not "exactly one true".
When the counted `otherYes` is `0` or `memory_length - 1`, the primary flag `X` is
set true and no other key can map to a true boolean (every boolean value is reset to
`False`); otherwise `X` is set false and every caller-supplied boolean flag other
than `X` keeps its value — so zero or several non-`X` flags may remain true, and
only the first true flag in declared-key order is used by the memory scan. -/
theorem flag_resolution_branches (ml oy : Nat) (kw : Dict) (keys : List String) :
    ((oy = ml - 1 ∨ oy = 0) →
        dget (leftovers keys (resolve_flags ml oy kw)) "X" = some (.boolean true)
        ∧ ∀ k, k ≠ "X" →
            dget (leftovers keys (resolve_flags ml oy kw)) k ≠ some (.boolean true))
    ∧ (¬(oy = ml - 1 ∨ oy = 0) →
        dget (leftovers keys (resolve_flags ml oy kw)) "X" = some (.boolean false)
        ∧ ∀ k b, k ≠ "X" → dget kw k = some (.boolean b) →
            dget (leftovers keys (resolve_flags ml oy kw)) k = some (.boolean b)) := by
  constructor
  · intro hbr
    constructor
    · apply leftovers_dget_some
      simp [resolve_flags, if_pos hbr, dget_dset]
    · intro k hk
      have hres : dget (resolve_flags ml oy kw) k ≠ some (.boolean true) := by
        simp only [resolve_flags, if_pos hbr]
        rw [dget_dset, if_neg (fun h => hk h.symm), dget_map_val]
        cases hg : dget kw k with
        | none => simp
        | some v =>
          simp only [Option.map_some']
          intro hx
          injection hx with hx
          exact falsify_ne_true v hx
      rcases leftovers_dget_or keys (resolve_flags ml oy kw) k with h | h
      · rw [h]; exact hres
      · rw [h]; simp
  · intro hbr
    constructor
    · apply leftovers_dget_some
      simp [resolve_flags, if_neg hbr, dget_dset]
    · intro k b hk hb
      apply leftovers_dget_some
      simp only [resolve_flags, if_neg hbr]
      rw [dget_dset, if_neg (fun h => hk h.symm)]
      exact hb

/-- C3 witness: both branches of the amended statement at concrete inputs: with two
keys and `otherYes = 1 = len - 1` the `X` flag ends true and `a` false; with four
keys and `otherYes = 2` the `X` flag ends false and the supplied `a := True`
survives. -/
theorem flag_resolution_branches_witness :
    (dget (leftovers ["X", "a"] (resolve_flags 2 1 [("a", Value.boolean true)])) "X"
        = some (Value.boolean true)
      ∧ dget (leftovers ["X", "a"] (resolve_flags 2 1 [("a", Value.boolean true)])) "a"
        ≠ some (Value.boolean true))
    ∧ (dget (leftovers ["X", "a", "b", "c"]
          (resolve_flags 4 2 [("a", Value.boolean true)])) "X"
        = some (Value.boolean false)
      ∧ dget (leftovers ["X", "a", "b", "c"]
          (resolve_flags 4 2 [("a", Value.boolean true)])) "a"
        = some (Value.boolean true)) :=
  ⟨⟨((flag_resolution_branches 2 1 [("a", Value.boolean true)] ["X", "a"]).1
        (by decide)).1,
    ((flag_resolution_branches 2 1 [("a", Value.boolean true)] ["X", "a"]).1
        (by decide)).2 "a" (by decide)⟩,
    ⟨((flag_resolution_branches 4 2 [("a", Value.boolean true)] ["X", "a", "b", "c"]).2
        (by decide)).1,
    ((flag_resolution_branches 4 2 [("a", Value.boolean true)] ["X", "a", "b", "c"]).2
        (by decide)).2 "a" true (by decide) rfl⟩⟩

/-- C9: whenever flag resolution takes the default/ambiguous branch (the counted
`otherYes` equals `0` or `memory_length - 1`, so the primary flag `X` is set true)
and the guarded call reaches the wrapped function, every caller-supplied
boolean-valued keyword argument other than `X` — including genuine boolean
parameters that are not memory-check keys — arrives as `False`, and no keyword the
wrapped function receives maps to `True` at all (other than the deleted `X`). -/
theorem x_branch_clobbers_booleans (is64 : Bool) (params : List String)
    (memcheck : List (String × Pattern)) (square : Bool) (avail : Nat)
    (args : List Value) (kwargs0 kw1 : Dict) (oy1 oy : Nat) (dup : List Bool)
    (fa : List Value) (fk : Dict)
    (hscan : bool_scan (memcheck.map Prod.fst) args 0 kwargs0 0 = .ok (kw1, oy1, dup))
    (hchk : kwargs_check params kw1 oy1 = .ok oy)
    (hbr : oy = memcheck.length - 1 ∨ oy = 0)
    (hok : wrapper_core is64 params memcheck square avail args kwargs0 = .ok (fa, fk)) :
    (∀ k b, k ≠ "X" → dget kwargs0 k = some (.boolean b) →
        dget fk k = some (.boolean false))
    ∧ (∀ k, k ≠ "X" → dget fk k ≠ some (.boolean true)) := by
  simp only [wrapper_core] at hok
  cases hprep : prepare is64 params memcheck square args kwargs0 with
  | error e => simp [hprep] at hok
  | ok st =>
  simp only [hprep] at hok
  simp only [prepare] at hprep
  cases hval : validate params.length args kwargs0 with
  | error e => simp [hval] at hprep
  | ok u =>
  simp only [hval, hscan, hchk] at hprep
  split at hprep
  · exact absurd hprep (by simp)
  · split at hprep
    · exact absurd hprep (by simp)
    · split at hprep
      · exact absurd hprep (by simp)
      · rename_i needH ndH xdt hch needT ndT hct kw3 needK ndK hckw
        simp only [Except.ok.injEq] at hprep
        subst hprep
        split at hok
        · exact absurd hok (by simp)
        · simp only [after_admission] at hok
          split at hok
          · exact absurd hok (by simp)
          · split at hok
            · exact absurd hok (by simp)
            · rename_i u2 hcp kw4 hck
              split at hok
              · exact absurd hok (by simp)
              · rename_i u3 hcl
                simp only [Except.ok.injEq, Prod.mk.injEq] at hok
                obtain ⟨hfa, hfk⟩ := hok
                have hmap : kw3 = (leftovers (memcheck.map Prod.fst)
                    (resolve_flags memcheck.length oy kw1)).map
                      (fun p => (p.1, matrix_to_array p.2)) :=
                  classify_kwargs_ok_map is64 square _ kw3 needK ndK hckw
                constructor
                · intro k b hk hb
                  obtain ⟨b2, hb2⟩ := bool_scan_keeps_boolean
                    (memcheck.map Prod.fst) args 0 kwargs0 kw1 0 oy1 dup k b hscan hb
                  have hres : dget (resolve_flags memcheck.length oy kw1) k
                      = some (.boolean false) := by
                    simp only [resolve_flags, if_pos hbr]
                    rw [dget_dset, if_neg (fun h => hk h.symm), dget_map_val, hb2]
                    rfl
                  have hleft : dget (leftovers (memcheck.map Prod.fst)
                      (resolve_flags memcheck.length oy kw1)) k
                      = some (.boolean false) :=
                    leftovers_dget_some _ _ k _ hres
                  have hkw3 : dget kw3 k = some (.boolean false) := by
                    rw [hmap, dget_map_val, hleft]
                    rfl
                  have hkw4 : dget kw4 k = some (.boolean false) :=
                    convert_kwargs_keeps_boolean kw3 kw4 ndK k false hck hkw3
                  rw [← hfk, dget_ddel_ne _ _ _ hk]
                  exact hkw4
                · intro k hk
                  have hres : dget (resolve_flags memcheck.length oy kw1) k
                      ≠ some (.boolean true) := by
                    simp only [resolve_flags, if_pos hbr]
                    rw [dget_dset, if_neg (fun h => hk h.symm), dget_map_val]
                    cases hg : dget kw1 k with
                    | none => simp
                    | some v =>
                      simp only [Option.map_some']
                      intro hx
                      injection hx with hx
                      exact falsify_ne_true v hx
                  have hleft : dget (leftovers (memcheck.map Prod.fst)
                      (resolve_flags memcheck.length oy kw1)) k
                      ≠ some (.boolean true) := by
                    rcases leftovers_dget_or (memcheck.map Prod.fst)
                        (resolve_flags memcheck.length oy kw1) k with h | h
                    · rw [h]; exact hres
                    · rw [h]; simp
                  have hkw3 : dget kw3 k ≠ some (.boolean true) := by
                    rw [hmap, dget_map_val]
                    cases hg : dget (leftovers (memcheck.map Prod.fst)
                        (resolve_flags memcheck.length oy kw1)) k with
                    | none => simp
                    | some v =>
                      simp only [Option.map_some']
                      intro hx
                      injection hx with hx
                      exact hleft (by rw [hg, matrix_to_array_eq_true v hx])
                  have hkw4 : dget kw4 k ≠ some (.boolean true) :=
                    convert_kwargs_no_new_true kw3 kw4 ndK k hck hkw3
                  rw [← hfk, dget_ddel_ne _ _ _ hk]
                  exact hkw4

/-- C9 witness: a wrapped function with a genuine boolean parameter `verbose` that is
not a memory-check key, called with `verbose := True`; `otherYes = 1 = 2 - 1` takes
the default branch and the function receives `verbose = False`. -/
theorem x_branch_clobbers_booleans_witness :
    dget [("verbose", Value.boolean false), ("a", Value.boolean false)] "verbose"
      = some (Value.boolean false) :=
  (x_branch_clobbers_booleans true ["X", "a", "verbose"] [("X", .full), ("a", .same)]
      false 0 [.arr (.two 2 2) .float32] [("verbose", .boolean true)]
      [("verbose", Value.boolean true)] 0 1 [false]
      [.arr (.two 2 2) .float32]
      [("verbose", Value.boolean false), ("a", Value.boolean false)]
      rfl rfl (Or.inl rfl) rfl).1 "verbose" true (by decide) rfl
